import Mathlib

/-!
Shallow embedding of the user CRUD resolvers of
`src/graphql/resolvers/userResolver.ts`, over a relational store that
models the Sequelize `User` model declared in the README: table
`users`, storage-generated primary key `id`, column `name` not null,
column `email` not null and unique.
-/

/-- A persisted `User` row: generated `id`, `name`, `email`.  Both
columns are declared non-null, so the embedding uses total `String`
fields. -/
structure UserRec where
  id : Nat
  name : String
  email : String
deriving Repr, DecidableEq

/-- The relational store: the `users` table in storage order, plus the
auto-increment counter the storage layer uses to assign fresh primary
keys. -/
structure Store where
  nextId : Nat
  users : List UserRec
deriving Repr, DecidableEq

/-- Empty storage; serial columns start counting at 1. -/
def emptyStore : Store := ⟨1, []⟩

/-- `User.findByPk(id)`: look up the row with primary key `id`. -/
def findByPk (s : Store) (id : Nat) : Option UserRec :=
  s.users.find? (fun u => u.id == id)

/-- `User.findAll()`: every row, in storage order. -/
def findAll (s : Store) : List UserRec :=
  s.users

/-- Does some row already carry this email?  This is the check the
unique constraint on `email` performs on an insert. -/
def emailTaken (s : Store) (email : String) : Bool :=
  s.users.any (fun u => u.email == email)

/-- Failures a resolver call can surface: the generic `Error` thrown
by the resolver itself, or the constraint rejection raised by the
storage layer for a duplicate `email`. -/
inductive ResolverError where
  | generic (msg : String)
  | constraintViolation
deriving Repr, DecidableEq

/-- `User.create({ name, email })`: insert one fresh row; the storage
layer assigns the primary key and rejects a duplicate `email`. -/
def create (s : Store) (name email : String) :
    Except ResolverError (UserRec × Store) :=
  if emailTaken s email then
    .error .constraintViolation
  else
    let u : UserRec := ⟨s.nextId, name, email⟩
    .ok (u, ⟨s.nextId + 1, s.users ++ [u]⟩)

/-- `user.save()`: write back a row previously loaded from the store;
the unique constraint rejects the write when a different row carries
the same `email`. -/
def save (s : Store) (u : UserRec) : Except ResolverError Store :=
  if s.users.any (fun v => v.id != u.id && v.email == u.email) then
    .error .constraintViolation
  else
    .ok ⟨s.nextId, s.users.map (fun v => if v.id == u.id then u else v)⟩

/-- `user.destroy()`: delete the row with this primary key. -/
def destroy (s : Store) (id : Nat) : Store :=
  ⟨s.nextId, s.users.filter (fun v => v.id != id)⟩

/-- Resolver `getUser`: `User.findByPk(id)`. -/
def getUser (s : Store) (id : Nat) : Option UserRec :=
  findByPk s id

/-- Resolver `getUsers`: `User.findAll()`. -/
def getUsers (s : Store) : List UserRec :=
  findAll s

/-- Resolver `createUser`: `User.create({ name, email })`. -/
def createUser (s : Store) (name email : String) :
    Except ResolverError (UserRec × Store) :=
  create s name email

/-- The two truthiness-guarded assignments of `updateUser`
(`if (name) user.name = name; if (email) user.email = email;`): a
field is assigned only when the supplied value is truthy, that is,
present and non-empty. -/
def mergeUser (user : UserRec) (name email : Option String) : UserRec :=
  let u1 := match name with
    | some n => if n.isEmpty then user else { user with name := n }
    | none => user
  match email with
  | some e => if e.isEmpty then u1 else { u1 with email := e }
  | none => u1

/-- Resolver `updateUser`: find the row by `id`; throw
`Error("User not found")` when absent; apply the truthiness-guarded
assignments; then `user.save()`. -/
def updateUser (s : Store) (id : Nat) (name email : Option String) :
    Except ResolverError (UserRec × Store) :=
  match findByPk s id with
  | none => .error (.generic "User not found")
  | some user =>
    let u2 := mergeUser user name email
    match save s u2 with
    | .error err => .error err
    | .ok s' => .ok (u2, s')

/-- Resolver `deleteUser`: find the row by `id`; return `false` when
absent; otherwise `user.destroy()` and return `true`. -/
def deleteUser (s : Store) (id : Nat) : Bool × Store :=
  match findByPk s id with
  | none => (false, s)
  | some _ => (true, destroy s id)

/-- Store invariants: primary keys pairwise distinct, emails pairwise
distinct (the unique constraint), and the auto-increment counter
strictly ahead of every assigned key. -/
def Wf (s : Store) : Prop :=
  (s.users.map UserRec.id).Nodup ∧
  (s.users.map UserRec.email).Nodup ∧
  ∀ u ∈ s.users, u.id < s.nextId

instance : DecidablePred Wf := fun s => by
  unfold Wf
  infer_instance

example : createUser emptyStore "a" "a@x" =
    .ok (⟨1, "a", "a@x"⟩, ⟨2, [⟨1, "a", "a@x"⟩]⟩) := rfl

example : Wf emptyStore := by decide

example :
    updateUser ⟨2, [⟨1, "a", "a@x"⟩]⟩ 1 (some "b") none =
      .ok (⟨1, "b", "a@x"⟩, ⟨2, [⟨1, "b", "a@x"⟩]⟩) := rfl

example : deleteUser ⟨2, [⟨1, "a", "a@x"⟩]⟩ 1 = (true, ⟨2, []⟩) := by decide

example : updateUser emptyStore 5 (some "b") none =
    .error (.generic "User not found") := rfl

/-- The table state after a `createUser` request: the new store on
success, the untouched store when the storage layer rejected the
insert. -/
def storeAfterCreate (s : Store) (name email : String) : Store :=
  match createUser s name email with
  | .ok (_, s2) => s2
  | .error _ => s

/-- The table state after an `updateUser` request: the new store on
success, the untouched store when the call failed. -/
def storeAfterUpdate (s : Store) (id : Nat) (name email : Option String) :
    Store :=
  match updateUser s id name email with
  | .ok (_, s2) => s2
  | .error _ => s

lemma mem_of_findByPk {s : Store} {i : Nat} {u : UserRec}
    (h : findByPk s i = some u) : u ∈ s.users ∧ u.id = i := by
  unfold findByPk at h
  refine ⟨List.mem_of_find?_eq_some h, ?_⟩
  have hp := List.find?_some h
  simpa using hp

lemma find_id_of_mem {l : List UserRec} {u : UserRec}
    (hids : (l.map UserRec.id).Nodup) (hu : u ∈ l) :
    l.find? (fun v => v.id == u.id) = some u := by
  induction l with
  | nil => cases hu
  | cons a t ih =>
    rw [List.map_cons, List.nodup_cons] at hids
    rcases List.mem_cons.mp hu with h | h
    · subst h
      simp
    · have hne : a.id ≠ u.id := by
        intro he
        exact hids.1 (he ▸ List.mem_map_of_mem UserRec.id h)
      rw [List.find?_cons_of_neg _ (by simpa using hne)]
      exact ih hids.2 h

lemma findByPk_of_mem {s : Store} {u : UserRec}
    (hids : (s.users.map UserRec.id).Nodup) (hu : u ∈ s.users) :
    findByPk s u.id = some u :=
  find_id_of_mem hids hu

lemma findByPk_eq_none {s : Store} {i : Nat}
    (h : ∀ u ∈ s.users, u.id ≠ i) :
    findByPk s i = none := by
  unfold findByPk
  rw [List.find?_eq_none]
  intro v hv
  simpa using h v hv

lemma save_ok {s : Store} {u2 : UserRec}
    (hno : ∀ v ∈ s.users, v.id ≠ u2.id → v.email ≠ u2.email) :
    save s u2 =
      .ok ⟨s.nextId,
           s.users.map (fun v => if v.id == u2.id then u2 else v)⟩ := by
  unfold save
  rw [if_neg]
  intro hany
  rw [List.any_eq_true] at hany
  obtain ⟨v, hv, hp⟩ := hany
  rw [Bool.and_eq_true, bne_iff_ne, beq_iff_eq] at hp
  exact hno v hv hp.1 hp.2

lemma save_error {s : Store} {u2 w : UserRec}
    (hw : w ∈ s.users) (hne : w.id ≠ u2.id) (he : w.email = u2.email) :
    save s u2 = .error .constraintViolation := by
  unfold save
  rw [if_pos]
  rw [List.any_eq_true]
  exact ⟨w, hw, by simp [hne, he]⟩

lemma no_other_email {l : List UserRec} {u : UserRec}
    (hemails : (l.map UserRec.email).Nodup) (hu : u ∈ l) :
    ∀ v ∈ l, v.id ≠ u.id → v.email ≠ u.email := by
  intro v hv hne he
  exact hne (List.inj_on_of_nodup_map hemails hv hu he ▸ rfl)

lemma map_update_self {l : List UserRec} {u : UserRec}
    (hids : (l.map UserRec.id).Nodup) (hu : u ∈ l) :
    l.map (fun v => if v.id == u.id then u else v) = l := by
  have h : ∀ v ∈ l, (if v.id == u.id then u else v) = id v := by
    intro v hv
    by_cases hc : v.id = u.id
    · rw [if_pos (by simpa using hc)]
      exact (List.inj_on_of_nodup_map hids hv hu hc).symm
    · rw [if_neg (by simpa using hc)]
      rfl
  rw [List.map_congr_left h, List.map_id]

lemma map_update_ids (l : List UserRec) (u2 : UserRec) :
    ((l.map (fun v => if v.id == u2.id then u2 else v)).map UserRec.id)
      = l.map UserRec.id := by
  rw [List.map_map]
  refine List.map_congr_left ?_
  intro v _
  by_cases h : v.id = u2.id
  · simp [Function.comp, h]
  · simp [Function.comp, h]

lemma map_update_emails_nodup {l : List UserRec} {u2 : UserRec}
    (hids : (l.map UserRec.id).Nodup)
    (hemails : (l.map UserRec.email).Nodup)
    (hok : ∀ v ∈ l, v.id ≠ u2.id → v.email ≠ u2.email) :
    ((l.map (fun v => if v.id == u2.id then u2 else v)).map
        UserRec.email).Nodup := by
  induction l with
  | nil => simp
  | cons a t ih =>
    rw [List.map_cons, List.nodup_cons] at hids hemails
    by_cases ha : a.id = u2.id
    · have ht : t.map (fun v => if v.id == u2.id then u2 else v) = t := by
        refine (List.map_congr_left ?_).trans (List.map_id t)
        intro v hv
        rw [if_neg]
        · rfl
        · simp only [beq_iff_eq]
          intro hvid
          exact hids.1 ((ha ▸ hvid : v.id = a.id) ▸
            List.mem_map_of_mem UserRec.id hv)
      rw [List.map_cons, ht, if_pos (by simpa using ha), List.map_cons,
        List.nodup_cons]
      refine ⟨?_, hemails.2⟩
      intro hmem
      obtain ⟨v, hv, hve⟩ := List.mem_map.mp hmem
      have hvid : v.id ≠ u2.id := by
        intro hvid
        exact hids.1 ((ha ▸ hvid : v.id = a.id) ▸
          List.mem_map_of_mem UserRec.id hv)
      exact hok v (List.mem_cons_of_mem a hv) hvid hve
    · rw [List.map_cons, if_neg (by simpa using ha), List.map_cons,
        List.nodup_cons]
      constructor
      · intro hmem
        obtain ⟨w, hw, hwe⟩ := List.mem_map.mp hmem
        obtain ⟨v, hv, hfv⟩ := List.mem_map.mp hw
        by_cases hc : v.id = u2.id
        · rw [if_pos (by simpa using hc)] at hfv
          subst hfv
          exact hok a (List.mem_cons_self a t) ha hwe.symm
        · rw [if_neg (by simpa using hc)] at hfv
          subst hfv
          exact hemails.1 (hwe ▸ List.mem_map_of_mem UserRec.email hv)
      · exact ih hids.2 hemails.2
          (fun v hv => hok v (List.mem_cons_of_mem a hv))

lemma filter_email_singleton {l : List UserRec} {u : UserRec}
    (hemails : (l.map UserRec.email).Nodup) (hu : u ∈ l) :
    l.filter (fun v => v.email == u.email) = [u] := by
  induction l with
  | nil => cases hu
  | cons a t ih =>
    rw [List.map_cons, List.nodup_cons] at hemails
    rcases List.mem_cons.mp hu with h | h
    · subst h
      rw [List.filter_cons_of_pos (by simp)]
      have ht : t.filter (fun v => v.email == u.email) = [] := by
        rw [List.filter_eq_nil_iff]
        intro v hv hp
        rw [beq_iff_eq] at hp
        exact hemails.1 (hp ▸ List.mem_map_of_mem UserRec.email hv)
      rw [ht]
    · have hne : a.email ≠ u.email := by
        intro he
        exact hemails.1 (he ▸ List.mem_map_of_mem UserRec.email h)
      rw [List.filter_cons_of_neg (by simpa using hne)]
      exact ih hemails.2 h

lemma mergeUser_id (user : UserRec) (n e : Option String) :
    (mergeUser user n e).id = user.id := by
  unfold mergeUser
  cases n <;> cases e <;> dsimp <;> (repeat' split) <;> rfl

lemma mergeUser_name_only {user : UserRec} {n : String} (hn : n ≠ "") :
    mergeUser user (some n) none = { user with name := n } := by
  have hne : ¬ (n.isEmpty = true) := fun h => hn ((String.isEmpty_iff n).mp h)
  simp only [mergeUser]
  rw [if_neg hne]

lemma mergeUser_empty (user : UserRec) :
    mergeUser user (some "") (some "") = user := by
  rfl

lemma create_ok_inv {s : Store} {nm e : String} {u : UserRec} {s2 : Store}
    (h : createUser s nm e = .ok (u, s2)) :
    emailTaken s e = false ∧ u = ⟨s.nextId, nm, e⟩ ∧
      s2 = ⟨s.nextId + 1, s.users ++ [u]⟩ := by
  unfold createUser create at h
  by_cases hc : emailTaken s e = true
  · rw [if_pos hc] at h
    exact Except.noConfusion h
  · rw [if_neg hc] at h
    rw [Bool.not_eq_true] at hc
    simp only [Except.ok.injEq, Prod.mk.injEq] at h
    exact ⟨hc, h.1.symm, h.1 ▸ h.2.symm⟩

lemma save_ok_inv {s : Store} {u2 : UserRec} {s3 : Store}
    (h : save s u2 = .ok s3) :
    (∀ v ∈ s.users, v.id ≠ u2.id → v.email ≠ u2.email) ∧
      s3 = ⟨s.nextId,
            s.users.map (fun v => if v.id == u2.id then u2 else v)⟩ := by
  unfold save at h
  by_cases hc :
      s.users.any (fun v => v.id != u2.id && v.email == u2.email) = true
  · rw [if_pos hc] at h
    exact Except.noConfusion h
  · rw [if_neg hc] at h
    rw [Bool.not_eq_true, List.any_eq_false] at hc
    simp only [Except.ok.injEq] at h
    refine ⟨?_, h.symm⟩
    intro v hv hvid hve
    exact hc v hv (by simp [hvid, hve])

lemma update_ok_inv {s : Store} {i : Nat} {n e : Option String}
    {u : UserRec} {s2 : Store}
    (h : updateUser s i n e = .ok (u, s2)) :
    ∃ user, findByPk s i = some user ∧ u = mergeUser user n e ∧
      (∀ v ∈ s.users, v.id ≠ u.id → v.email ≠ u.email) ∧
      s2 = ⟨s.nextId,
            s.users.map (fun v => if v.id == u.id then u else v)⟩ := by
  unfold updateUser at h
  cases hf : findByPk s i with
  | none =>
    rw [hf] at h
    exact Except.noConfusion h
  | some user =>
    rw [hf] at h
    dsimp only at h
    cases hs : save s (mergeUser user n e) with
    | error err =>
      rw [hs] at h
      exact Except.noConfusion h
    | ok s3 =>
      rw [hs] at h
      simp only [Except.ok.injEq, Prod.mk.injEq] at h
      obtain ⟨hsave, hs3⟩ := save_ok_inv hs
      exact ⟨user, rfl, h.1.symm, h.1 ▸ hsave, h.2.symm.trans (h.1 ▸ hs3)⟩

lemma updateUser_of_found {s : Store} {i : Nat} {user : UserRec}
    {n e : Option String} {s3 : Store}
    (hf : findByPk s i = some user)
    (hs : save s (mergeUser user n e) = .ok s3) :
    updateUser s i n e = .ok (mergeUser user n e, s3) := by
  unfold updateUser
  rw [hf]
  dsimp only
  rw [hs]

/-- Claim C2: when the email is not already present in storage,
`createUser` inserts exactly one new record, the storage layer assigns
its `id` (the auto-increment counter, hence a present, non-null key),
and the call returns that record with `name` and `email` equal to the
input. -/
theorem C2_createUser_inserts (s : Store) (name email : String)
    (h : emailTaken s email = false) :
    createUser s name email =
      .ok (⟨s.nextId, name, email⟩,
           ⟨s.nextId + 1, s.users ++ [⟨s.nextId, name, email⟩]⟩) := by
  unfold createUser create
  rw [if_neg (by rw [h]; exact Bool.false_ne_true)]

theorem C2_witness :
    createUser ⟨1, []⟩ "Ada" "ada@x.io" =
      .ok (⟨1, "Ada", "ada@x.io"⟩, ⟨2, [⟨1, "Ada", "ada@x.io"⟩]⟩) :=
  C2_createUser_inserts ⟨1, []⟩ "Ada" "ada@x.io" rfl

/-- Claim C4: on a store with no record under the id, `updateUser`
fails with the generic (untyped) error and the store is unchanged: no
record created, none modified. -/
theorem C4_updateUser_not_found (s : Store) (i : Nat)
    (name email : Option String) (h : ∀ u ∈ s.users, u.id ≠ i) :
    updateUser s i name email = .error (.generic "User not found") ∧
    storeAfterUpdate s i name email = s := by
  have hf : findByPk s i = none := findByPk_eq_none h
  have h1 : updateUser s i name email =
      .error (.generic "User not found") := by
    unfold updateUser
    rw [hf]
  refine ⟨h1, ?_⟩
  unfold storeAfterUpdate
  rw [h1]

theorem C4_witness :
    updateUser emptyStore 5 (some "b") none =
      .error (.generic "User not found") ∧
    storeAfterUpdate emptyStore 5 (some "b") none = emptyStore :=
  C4_updateUser_not_found emptyStore 5 (some "b") none (by decide)

/-- Claim C5: `deleteUser` on a present id removes that record and
returns `true`, and a subsequent `getUser` for the id returns `none`;
on an absent id it returns `false` (not an error) and leaves the store
unchanged. -/
theorem C5_deleteUser_spec (s : Store) (i : Nat) :
    (∀ u, findByPk s i = some u →
        deleteUser s i = (true, destroy s i) ∧
        (destroy s i).users = s.users.filter (fun v => v.id != i) ∧
        getUser (destroy s i) i = none) ∧
    (findByPk s i = none → deleteUser s i = (false, s)) := by
  constructor
  · intro u hu
    refine ⟨?_, rfl, ?_⟩
    · unfold deleteUser
      rw [hu]
    · refine findByPk_eq_none ?_
      intro v hv
      have hm := List.mem_filter.mp hv
      simpa using hm.2
  · intro h
    unfold deleteUser
    rw [h]

theorem C5_witness :
    deleteUser ⟨2, [⟨1, "a", "a@x"⟩]⟩ 1 = (true, ⟨2, []⟩) ∧
    getUser ⟨2, []⟩ 1 = none ∧
    deleteUser ⟨2, [⟨1, "a", "a@x"⟩]⟩ 9 =
      (false, ⟨2, [⟨1, "a", "a@x"⟩]⟩) := by
  have h1 := C5_deleteUser_spec ⟨2, [⟨1, "a", "a@x"⟩]⟩ 1
  have h9 := C5_deleteUser_spec ⟨2, [⟨1, "a", "a@x"⟩]⟩ 9
  exact ⟨(h1.1 ⟨1, "a", "a@x"⟩ rfl).1, (h1.1 ⟨1, "a", "a@x"⟩ rfl).2.2,
    h9.2 rfl⟩

/-- Claim C6: `getUser` returns the unique record carrying the
requested primary key when one exists and `none` (not an error)
otherwise; being a pure function of the store it modifies nothing. -/
theorem C6_getUser_lookup (s : Store) (i : Nat) (hwf : Wf s) :
    (∀ u ∈ s.users, u.id = i → getUser s i = some u) ∧
    (∀ u, getUser s i = some u →
        u ∈ s.users ∧ u.id = i ∧ ∀ v ∈ s.users, v.id = i → v = u) ∧
    ((∀ u ∈ s.users, u.id ≠ i) → getUser s i = none) := by
  refine ⟨?_, ?_, ?_⟩
  · intro u hu hui
    have hfind := findByPk_of_mem hwf.1 hu
    rw [hui] at hfind
    exact hfind
  · intro u hu
    obtain ⟨hmem, hid⟩ := mem_of_findByPk hu
    refine ⟨hmem, hid, ?_⟩
    intro v hv hvid
    exact List.inj_on_of_nodup_map hwf.1 hv hmem (hvid.trans hid.symm)
  · intro h
    exact findByPk_eq_none h

theorem C6_witness :
    getUser ⟨2, [⟨1, "a", "a@x"⟩]⟩ 1 = some ⟨1, "a", "a@x"⟩ ∧
    getUser ⟨2, [⟨1, "a", "a@x"⟩]⟩ 5 = none :=
  ⟨(C6_getUser_lookup ⟨2, [⟨1, "a", "a@x"⟩]⟩ 1 (by decide)).1
      ⟨1, "a", "a@x"⟩ (by decide) rfl,
    (C6_getUser_lookup ⟨2, [⟨1, "a", "a@x"⟩]⟩ 5 (by decide)).2.2 (by decide)⟩

/-- Claim C8: `getUsers` takes no input and returns the full stored
set in storage order: empty storage yields `[]` (never an error), the
result has no duplicates, and each successful `createUser` grows it by
exactly one record, so N creations from empty give exactly N. -/
theorem C8_getUsers_all (s : Store) (nm e : String) (u : UserRec)
    (s2 : Store) (hwf : Wf s) :
    getUsers emptyStore = [] ∧
    getUsers s = s.users ∧
    (getUsers s).Nodup ∧
    (createUser s nm e = .ok (u, s2) →
      (getUsers s2).length = (getUsers s).length + 1) := by
  refine ⟨rfl, rfl, List.Nodup.of_map UserRec.id hwf.1, ?_⟩
  intro h
  obtain ⟨-, -, hs2⟩ := create_ok_inv h
  rw [hs2]
  simp [getUsers, findAll]

theorem C8_witness :
    getUsers emptyStore = [] ∧
    getUsers ⟨2, [⟨1, "a", "a@x"⟩]⟩ = [⟨1, "a", "a@x"⟩] ∧
    (getUsers ⟨2, [⟨1, "a", "a@x"⟩]⟩).Nodup ∧
    (createUser ⟨2, [⟨1, "a", "a@x"⟩]⟩ "b" "b@x" =
        .ok (⟨2, "b", "b@x"⟩, ⟨3, [⟨1, "a", "a@x"⟩, ⟨2, "b", "b@x"⟩]⟩) →
      (getUsers ⟨3, [⟨1, "a", "a@x"⟩, ⟨2, "b", "b@x"⟩]⟩).length =
        (getUsers ⟨2, [⟨1, "a", "a@x"⟩]⟩).length + 1) :=
  C8_getUsers_all ⟨2, [⟨1, "a", "a@x"⟩]⟩ "b" "b@x" ⟨2, "b", "b@x"⟩
    ⟨3, [⟨1, "a", "a@x"⟩, ⟨2, "b", "b@x"⟩]⟩ (by decide)

/-- Claim C9 fails on the code: `createUser` performs no emptiness
check on its inputs, so a call whose `name` and `email` are both the
empty string still creates a record. -/
theorem C9_counterexample :
    createUser emptyStore "" "" =
      .ok (⟨1, "", ""⟩, ⟨2, [⟨1, "", ""⟩]⟩) := rfl

/-- Claim C9 (amended): `createUser` applies no non-emptiness
validation; whenever the email is not already taken, a call with an
empty `name` (and possibly empty `email`) still inserts one record
carrying those empty strings. -/
theorem C9_no_emptiness_check (s : Store) (email : String)
    (h : emailTaken s email = false) :
    createUser s "" email =
      .ok (⟨s.nextId, "", email⟩,
           ⟨s.nextId + 1, s.users ++ [⟨s.nextId, "", email⟩]⟩) := by
  unfold createUser create
  rw [if_neg (by rw [h]; exact Bool.false_ne_true)]

theorem C9_witness :
    createUser ⟨1, []⟩ "" "x@y" =
      .ok (⟨1, "", "x@y"⟩, ⟨2, [⟨1, "", "x@y"⟩]⟩) :=
  C9_no_emptiness_check ⟨1, []⟩ "x@y" rfl

/-- Claim C10: each of the five resolvers is deterministic over the
store: two runs from equal store states with equal arguments produce
equal results (success or failure alike) and, the mutations being
functions of the store, equal final stores; id generation reads only
the store state. -/
theorem C10_deterministic (s1 s2 : Store) (i : Nat) (nm e : String)
    (n? e? : Option String) (h : s1 = s2) :
    getUser s1 i = getUser s2 i ∧
    getUsers s1 = getUsers s2 ∧
    createUser s1 nm e = createUser s2 nm e ∧
    updateUser s1 i n? e? = updateUser s2 i n? e? ∧
    deleteUser s1 i = deleteUser s2 i := by
  subst h
  exact ⟨rfl, rfl, rfl, rfl, rfl⟩

theorem C10_witness :
    getUser emptyStore 1 = getUser emptyStore 1 ∧
    getUsers emptyStore = getUsers emptyStore ∧
    createUser emptyStore "a" "a@x" = createUser emptyStore "a" "a@x" ∧
    updateUser emptyStore 1 none none = updateUser emptyStore 1 none none ∧
    deleteUser emptyStore 1 = deleteUser emptyStore 1 :=
  C10_deterministic emptyStore emptyStore 1 "a" "a@x" none none rfl

/-- Claim C1: on a store containing the requested id, `updateUser`
applies only the truthy-supplied fields: with only a non-empty `name`
supplied, `email` is kept and `name` replaced, and the merged record
is persisted (written back into the table) and returned; empty-string
`name`/`email` are treated as no change, record and store staying as
they were. -/
theorem C1_updateUser_partial (s : Store) (i : Nat) (user : UserRec)
    (n : String) (hwf : Wf s) (hf : findByPk s i = some user)
    (hn : n ≠ "") :
    updateUser s i (some n) none =
      .ok ({ user with name := n },
           ⟨s.nextId,
            s.users.map (fun v =>
              if v.id == user.id then { user with name := n } else v)⟩) ∧
    updateUser s i (some "") (some "") = .ok (user, s) := by
  obtain ⟨hmem, hid⟩ := mem_of_findByPk hf
  have hno : ∀ v ∈ s.users, v.id ≠ user.id → v.email ≠ user.email :=
    no_other_email hwf.2.1 hmem
  constructor
  · have hm : mergeUser user (some n) none = { user with name := n } :=
      mergeUser_name_only hn
    have hs2 : save s (mergeUser user (some n) none) =
        .ok ⟨s.nextId,
             s.users.map (fun v =>
               if v.id == user.id then { user with name := n } else v)⟩ := by
      rw [hm]
      exact save_ok hno
    have hres := updateUser_of_found hf hs2
    rw [hm] at hres
    exact hres
  · have hs2 : save s (mergeUser user (some "") (some "")) =
        .ok ⟨s.nextId,
             s.users.map (fun v => if v.id == user.id then user else v)⟩ :=
      save_ok hno
    have hres := updateUser_of_found hf hs2
    have heq : s.users.map (fun v => if v.id == user.id then user else v)
        = s.users := map_update_self hwf.1 hmem
    rw [heq] at hres
    exact hres

theorem C1_witness :
    updateUser ⟨2, [⟨1, "a", "a@x"⟩]⟩ 1 (some "b") none =
      .ok (⟨1, "b", "a@x"⟩, ⟨2, [⟨1, "b", "a@x"⟩]⟩) ∧
    updateUser ⟨2, [⟨1, "a", "a@x"⟩]⟩ 1 (some "") (some "") =
      .ok (⟨1, "a", "a@x"⟩, ⟨2, [⟨1, "a", "a@x"⟩]⟩) :=
  C1_updateUser_partial ⟨2, [⟨1, "a", "a@x"⟩]⟩ 1 ⟨1, "a", "a@x"⟩ "b"
    (by decide) rfl (by decide)

/-- Claim C3 fails as frozen when the duplicated email is the empty
string: the store below already holds a record with email `""` (such
records are creatable, `createUser` not validating emptiness), yet an
`updateUser` passing that email for the other record succeeds — the
truthiness check treats `""` as "no change", so no constraint error is
raised. -/
theorem C3_counterexample :
    updateUser ⟨3, [⟨1, "a", ""⟩, ⟨2, "b", "b@x"⟩]⟩ 2 none (some "") =
      .ok (⟨2, "b", "b@x"⟩, ⟨3, [⟨1, "a", ""⟩, ⟨2, "b", "b@x"⟩]⟩) := rfl

/-- Claim C3 (amended: the duplicated email must be non-empty, the
truthiness check otherwise turning the update into a no-change
success): with a record already carrying the email, a `createUser`
with that email fails with the constraint violation, an `updateUser`
moving that email onto a different record fails the same way, in both
cases the store is untouched, and it still holds exactly one record
with that email. -/
theorem C3_duplicate_email (s : Store) (nm : String) (u w : UserRec)
    (hwf : Wf s) (hu : u ∈ s.users) (hw : w ∈ s.users)
    (hne : w.id ≠ u.id) (hemail : u.email ≠ "") :
    createUser s nm u.email = .error .constraintViolation ∧
    storeAfterCreate s nm u.email = s ∧
    updateUser s w.id none (some u.email) = .error .constraintViolation ∧
    storeAfterUpdate s w.id none (some u.email) = s ∧
    (s.users.filter (fun v => v.email == u.email)).length = 1 := by
  have hc : createUser s nm u.email = .error .constraintViolation := by
    unfold createUser create
    rw [if_pos]
    unfold emailTaken
    rw [List.any_eq_true]
    exact ⟨u, hu, by simp⟩
  have hfw : findByPk s w.id = some w := findByPk_of_mem hwf.1 hw
  have hm : mergeUser w none (some u.email) =
      { w with email := u.email } := by
    have hne2 : ¬ (u.email.isEmpty = true) :=
      fun h => hemail ((String.isEmpty_iff u.email).mp h)
    simp only [mergeUser]
    rw [if_neg hne2]
  have hs : save s (mergeUser w none (some u.email)) =
      .error .constraintViolation := by
    rw [hm]
    exact save_error hu (Ne.symm hne) rfl
  have hup : updateUser s w.id none (some u.email) =
      .error .constraintViolation := by
    unfold updateUser
    rw [hfw]
    dsimp only
    rw [hs]
  refine ⟨hc, ?_, hup, ?_, ?_⟩
  · unfold storeAfterCreate
    rw [hc]
  · unfold storeAfterUpdate
    rw [hup]
  · rw [filter_email_singleton hwf.2.1 hu]
    rfl

theorem C3_witness :
    createUser ⟨3, [⟨1, "a", "a@x"⟩, ⟨2, "b", "b@x"⟩]⟩ "c" "a@x" =
      .error .constraintViolation ∧
    storeAfterCreate ⟨3, [⟨1, "a", "a@x"⟩, ⟨2, "b", "b@x"⟩]⟩ "c" "a@x" =
      ⟨3, [⟨1, "a", "a@x"⟩, ⟨2, "b", "b@x"⟩]⟩ ∧
    updateUser ⟨3, [⟨1, "a", "a@x"⟩, ⟨2, "b", "b@x"⟩]⟩ 2 none
        (some "a@x") = .error .constraintViolation ∧
    storeAfterUpdate ⟨3, [⟨1, "a", "a@x"⟩, ⟨2, "b", "b@x"⟩]⟩ 2 none
        (some "a@x") = ⟨3, [⟨1, "a", "a@x"⟩, ⟨2, "b", "b@x"⟩]⟩ ∧
    ((⟨3, [⟨1, "a", "a@x"⟩, ⟨2, "b", "b@x"⟩]⟩ : Store).users.filter
        (fun v => v.email == "a@x")).length = 1 :=
  C3_duplicate_email ⟨3, [⟨1, "a", "a@x"⟩, ⟨2, "b", "b@x"⟩]⟩ "c"
    ⟨1, "a", "a@x"⟩ ⟨2, "b", "b@x"⟩ (by decide) (by decide) (by decide)
    (by decide) (by decide)

/-- Claim C7: every mutation preserves the store invariants: emails
stay pairwise distinct (never a silent overwrite), primary keys stay
pairwise distinct with the counter ahead of them, `updateUser` leaves
the table's id column unchanged and returns a record whose id is the
requested one (ids are assigned once at creation and never change);
`name` and `email` are total strings by construction, hence non-null. -/
theorem C7_invariants_preserved (s : Store) (hwf : Wf s) :
    (∀ nm e u s2, createUser s nm e = .ok (u, s2) → Wf s2) ∧
    (∀ i n? e? u s2, updateUser s i n? e? = .ok (u, s2) →
        Wf s2 ∧ u.id = i ∧
        s2.users.map UserRec.id = s.users.map UserRec.id) ∧
    (∀ i b s2, deleteUser s i = (b, s2) → Wf s2) := by
  obtain ⟨hids, hemails, hbound⟩ := hwf
  refine ⟨?_, ?_, ?_⟩
  · intro nm e u s2 h
    obtain ⟨htaken, hu, hs2⟩ := create_ok_inv h
    subst hu
    subst hs2
    refine ⟨?_, ?_, ?_⟩
    · rw [List.map_append, List.nodup_append]
      refine ⟨hids, List.nodup_singleton _, ?_⟩
      intro x hx hx2
      simp only [List.map_cons, List.map_nil, List.mem_singleton] at hx2
      subst hx2
      obtain ⟨v, hv, hvid⟩ := List.mem_map.mp hx
      exact absurd (hvid ▸ hbound v hv) (lt_irrefl _)
    · rw [List.map_append, List.nodup_append]
      refine ⟨hemails, List.nodup_singleton _, ?_⟩
      intro x hx hx2
      simp only [List.map_cons, List.map_nil, List.mem_singleton] at hx2
      subst hx2
      obtain ⟨v, hv, hve⟩ := List.mem_map.mp hx
      unfold emailTaken at htaken
      rw [List.any_eq_false] at htaken
      exact htaken v hv (by simp [hve])
    · intro v hv
      rcases List.mem_append.mp hv with h1 | h1
      · exact Nat.lt_succ_of_lt (hbound v h1)
      · simp only [List.mem_singleton] at h1
        subst h1
        exact Nat.lt_succ_self _
  · intro i n? e? u s2 h
    obtain ⟨user, hf, hu, hok, hs2⟩ := update_ok_inv h
    obtain ⟨hmem, hid⟩ := mem_of_findByPk hf
    have huid : u.id = user.id := by
      rw [hu]
      exact mergeUser_id user n? e?
    subst hs2
    refine ⟨⟨?_, ?_, ?_⟩, huid.trans hid, map_update_ids s.users u⟩
    · rw [map_update_ids]
      exact hids
    · exact map_update_emails_nodup hids hemails hok
    · intro v hv
      obtain ⟨w2, hw2, hfw2⟩ := List.mem_map.mp hv
      by_cases hc : w2.id = u.id
      · rw [if_pos (by simpa using hc)] at hfw2
        subst hfw2
        rw [huid]
        exact hbound user hmem
      · rw [if_neg (by simpa using hc)] at hfw2
        subst hfw2
        exact hbound w2 hw2
  · intro i b s2 h
    unfold deleteUser at h
    cases hf : findByPk s i with
    | none =>
      rw [hf] at h
      simp only [Prod.mk.injEq] at h
      rw [← h.2]
      exact ⟨hids, hemails, hbound⟩
    | some w =>
      rw [hf] at h
      simp only [Prod.mk.injEq] at h
      rw [← h.2]
      unfold destroy
      refine ⟨?_, ?_, ?_⟩
      · exact ((List.filter_sublist s.users).map UserRec.id).nodup hids
      · exact ((List.filter_sublist s.users).map UserRec.email).nodup hemails
      · intro v hv
        exact hbound v (List.mem_of_mem_filter hv)

theorem C7_witness : Wf ⟨2, [⟨1, "a", "a@x"⟩]⟩ :=
  (C7_invariants_preserved ⟨1, []⟩ (by decide)).1 "a" "a@x"
    ⟨1, "a", "a@x"⟩ ⟨2, [⟨1, "a", "a@x"⟩]⟩ rfl
